import Mathlib

/-!
Shallow embedding of the clipboard-history manager (files
src/clipboardManager.ts, src/storage.ts, src/types.ts) and proofs about
its history-model policies.

Modelling conventions:
* Machine numbers (timestamps, sizes) are Int / Nat; the source never
  relies on overflow.
* The host clipboard is external: a polling tick takes the text returned
  by the clipboard read as an argument; a clipboard write is logged.
* generateId uses the wall clock and Math.random, so the fresh id and the
  current time are arguments of the operations that need them.
* excludePatterns holds the compiled regular-expression matchers as
  String-predicates (the RegExp engine is a host collaborator; an invalid
  pattern is skipped by the source, i.e. behaves as a never-matching
  predicate, which is a special case of this model).
* Array.prototype.sort with a consistent comparator is required by
  ECMAScript to be a stable sort, and a stable sort w.r.t. a total
  preorder has a unique result; it is modelled by insertionSort, which is
  stable, over the source comparator.
* EventEmitter.fire, storage saves and showInformationMessage are
  modelled by counters / logs in the state so that silence is observable.
-/

namespace ClipSpec

/-- Content classification from types.ts: contentType is text or code. -/
inductive ContentType where
  | text
  | code
deriving DecidableEq, Repr

/-- ClipboardEntry from types.ts. -/
structure ClipboardEntry where
  id : String
  content : String
  timestamp : Int
  isPinned : Bool
  sourceFile : Option String
  lineCount : Nat
  contentType : ContentType
deriving DecidableEq, Repr

/-- ClipboardManagerConfig from types.ts; excludePatterns holds the
compiled matchers (see module comment). -/
structure ClipboardManagerConfig where
  maxHistorySize : Nat
  showTimestamp : Bool
  enableNotifications : Bool
  autoCleanupDays : Nat
  excludePatterns : List (String → Bool)
  monitoringInterval : Nat
  previewLength : Nat

/-- SerializedHistory from types.ts. The entries field is wrapped in
Option so a stored record that lacks the field (the malformed case the
loader guards against) is representable. -/
structure SerializedHistory where
  entries : Option (List ClipboardEntry)
  version : String
deriving DecidableEq, Repr

/-- STORAGE_VERSION constant from storage.ts. -/
def STORAGE_VERSION : String := "1.0.0"

/-- StorageManager.saveHistory: wraps the list with the version tag and
replaces the stored record. -/
def saveHistory (_st : Option SerializedHistory) (entries : List ClipboardEntry) :
    Option SerializedHistory :=
  some { entries := some entries, version := STORAGE_VERSION }

/-- StorageManager.loadHistory: empty list when the record is absent or
has no entries field. -/
def loadHistory (st : Option SerializedHistory) : List ClipboardEntry :=
  match st with
  | none => []
  | some d =>
    match d.entries with
    | none => []
    | some es => es

/-- StorageManager.clearHistory: sets the stored record to undefined. -/
def storageClear (_st : Option SerializedHistory) : Option SerializedHistory :=
  none

/-- Split a character list at every occurrence of the separator, JS
String.prototype.split semantics for a one-character separator. -/
def splitOnChar (c : Char) : List Char → List (List Char)
  | [] => [[]]
  | x :: t =>
    let r := splitOnChar c t
    if x = c then [] :: r
    else
      match r with
      | [] => [[x]]
      | h :: rt => (x :: h) :: rt

/-- lineCount derivation in addEntry: content.split of the newline
character, then length. -/
def lineCount (content : String) : Nat :=
  (splitOnChar (Char.ofNat 10) content.data).length

/-- Substring test on character lists (JS RegExp literal-substring
patterns). -/
def containsSub (sub : List Char) : List Char → Bool
  | [] => sub.isPrefixOf []
  | x :: t => sub.isPrefixOf (x :: t) || containsSub sub t

/-- Keywords of the first pattern in detectContentType. -/
def codeKeywords : List String :=
  ["import", "export", "function", "class", "const", "let", "var", "if", "for", "while"]

/-- One line of the multiline keyword pattern: the line starts with a
keyword followed by a whitespace character; when the line ends right
after the keyword the following newline (present unless this is the last
line) matches the whitespace class. -/
def matchesKeywordLine (line : List Char) (notLast : Bool) : Bool :=
  codeKeywords.any (fun kw =>
    let k := kw.data
    k.isPrefixOf line &&
      (match line.drop k.length with
       | [] => notLast
       | c :: _ => c.isWhitespace))

/-- Apply matchesKeywordLine across the newline-split lines. -/
def anyKeywordLine : List (List Char) → Bool
  | [] => false
  | [l] => matchesKeywordLine l false
  | l :: rest => matchesKeywordLine l true || anyKeywordLine rest

/-- ClipboardManager.detectContentType: code when any heuristic pattern
matches, text otherwise. The JS whitespace class is modelled by
Char.isWhitespace. -/
def detectContentType (content : String) : ContentType :=
  let cs := content.data
  if anyKeywordLine (splitOnChar (Char.ofNat 10) cs)
      || cs.any (fun c => ['{', '}', '[', ']', ';', '(', ')'].contains c)
      || containsSub ['=', '>'] cs
      || containsSub ['/', '/'] cs
      || containsSub ['/', '*'] cs
  then ContentType.code
  else ContentType.text

/-- ClipboardManager.shouldExclude: true when any configured pattern
matches; invalid patterns are skipped (never-matching predicates in this
model). -/
def shouldExclude (cfg : ClipboardManagerConfig) (content : String) : Bool :=
  cfg.excludePatterns.any (fun p => p content)

/-- The comparator passed to Array.prototype.sort in togglePin. -/
def jsCompare (a b : ClipboardEntry) : Int :=
  if a.isPinned && !b.isPinned then -1
  else if !a.isPinned && b.isPinned then 1
  else b.timestamp - a.timestamp

/-- The before-or-equal ordering induced by the togglePin comparator. -/
def pinLe (a b : ClipboardEntry) : Prop :=
  jsCompare a b ≤ 0

instance : DecidableRel pinLe := fun a b =>
  inferInstanceAs (Decidable (jsCompare a b ≤ 0))

/-- Array.prototype.sort with the togglePin comparator (stable sort,
see module comment). -/
def sortEntries (l : List ClipboardEntry) : List ClipboardEntry :=
  List.insertionSort pinLe l

/-- Full engine-plus-effects state: the ClipboardManager fields together
with the persisted record and logs of the externally visible effects. -/
structure MState where
  entries : List ClipboardEntry
  lastClipboardContent : String
  config : ClipboardManagerConfig
  store : Option SerializedHistory
  clipboardWrites : List String
  notifyCount : Nat
  saveCount : Nat
  messageCount : Nat

/-- The entry record built at the top of addEntry. -/
def mkEntry (newId : String) (content : String) (now : Int)
    (sourceFile : Option String) : ClipboardEntry :=
  { id := newId
    content := content
    timestamp := now
    isPinned := false
    sourceFile := sourceFile
    lineCount := lineCount content
    contentType := detectContentType content }

/-- The max-history-size enforcement in addEntry: split into pinned and
unpinned, truncate the unpinned tail past maxHistorySize, reassemble
pinned-then-unpinned. -/
def capEntries (cfg : ClipboardManagerConfig) (l : List ClipboardEntry) :
    List ClipboardEntry :=
  let pinnedEntries := l.filter (fun e => e.isPinned)
  let unpinnedEntries := l.filter (fun e => !e.isPinned)
  pinnedEntries ++ unpinnedEntries.take cfg.maxHistorySize

/-- ClipboardManager.addEntry: build the entry, unshift, enforce the
cap, save, notify, optionally show a message. -/
def addEntry (s : MState) (content : String) (sourceFile : Option String)
    (newId : String) (now : Int) : MState :=
  let entry := mkEntry newId content now sourceFile
  let newEntries := capEntries s.config (entry :: s.entries)
  { s with
    entries := newEntries
    store := saveHistory s.store newEntries
    saveCount := s.saveCount + 1
    notifyCount := s.notifyCount + 1
    messageCount := s.messageCount + (if s.config.enableNotifications then 1 else 0) }

/-- ClipboardManager.checkClipboard on a successful clipboard read
returning current: the truthiness-and-change guard, then the baseline
update, the exclusion check, the duplicate-of-head check, then addEntry. -/
def checkClipboard (s : MState) (current : String) (newId : String) (now : Int) :
    MState :=
  if current ≠ "" ∧ current ≠ s.lastClipboardContent then
    let s1 := { s with lastClipboardContent := current }
    if shouldExclude s.config current then s1
    else
      match s.entries with
      | e :: _ =>
        if e.content = current then s1
        else addEntry s1 current none newId now
      | [] => addEntry s1 current none newId now
  else s

/-- ClipboardManager.deleteEntry: remove the first entry with the id if
present (findIndex plus splice), then save and notify; otherwise no-op. -/
def deleteEntry (s : MState) (id : String) : MState :=
  if s.entries.any (fun e => e.id == id) then
    let newEntries := s.entries.eraseP (fun e => e.id == id)
    { s with
      entries := newEntries
      store := saveHistory s.store newEntries
      saveCount := s.saveCount + 1
      notifyCount := s.notifyCount + 1 }
  else s

/-- In-place flip of the isPinned flag of the first entry with the given
id (Array.prototype.find returns the first match, which togglePin
mutates). -/
def toggleFirst (id : String) : List ClipboardEntry → List ClipboardEntry
  | [] => []
  | e :: t =>
    if e.id = id then { e with isPinned := !e.isPinned } :: t
    else e :: toggleFirst id t

/-- ClipboardManager.togglePin: when the id is present, flip the flag,
re-sort with the comparator, save and notify; otherwise no-op. -/
def togglePin (s : MState) (id : String) : MState :=
  if s.entries.any (fun e => e.id == id) then
    let newEntries := sortEntries (toggleFirst id s.entries)
    { s with
      entries := newEntries
      store := saveHistory s.store newEntries
      saveCount := s.saveCount + 1
      notifyCount := s.notifyCount + 1 }
  else s

/-- ClipboardManager.clearHistory: empty the list, clear the store,
notify. -/
def clearHistory (s : MState) : MState :=
  { s with
    entries := []
    store := storageClear s.store
    notifyCount := s.notifyCount + 1 }

/-- ClipboardManager.copyToClipboard: when the id is present, update the
baseline, write the clipboard, show a message; otherwise no-op. -/
def copyToClipboard (s : MState) (id : String) : MState :=
  match s.entries.find? (fun e => e.id == id) with
  | some entry =>
    { s with
      lastClipboardContent := entry.content
      clipboardWrites := s.clipboardWrites ++ [entry.content]
      messageCount := s.messageCount + 1 }
  | none => s

/-- The cutoff instant computed in cleanupOldEntries. -/
def cutoffTime (cfg : ClipboardManagerConfig) (now : Int) : Int :=
  now - (cfg.autoCleanupDays : Int) * 24 * 60 * 60 * 1000

/-- ClipboardManager.cleanupOldEntries: keep pinned entries and entries
strictly newer than the cutoff; save only when the list got shorter. -/
def cleanupOldEntries (s : MState) (now : Int) : MState :=
  let newEntries :=
    s.entries.filter (fun e => e.isPinned || decide (e.timestamp > cutoffTime s.config now))
  if newEntries.length < s.entries.length then
    { s with
      entries := newEntries
      store := saveHistory s.store newEntries
      saveCount := s.saveCount + 1 }
  else { s with entries := newEntries }

/-- ClipboardManager.updateConfig: replace the configuration (the timer
restart has no effect on the modelled state). -/
def updateConfig (s : MState) (cfg : ClipboardManagerConfig) : MState :=
  { s with config := cfg }

/-- ClipboardManager.getEntries: defensive copy of the list. -/
def getEntries (s : MState) : List ClipboardEntry :=
  s.entries

/-- ClipboardManager.initialize for a (possibly new) session over the
persisted store: load the history, run the cleanup sweep, snapshot the
clipboard text as the baseline. -/
def initSession (s : MState) (clip : String) (now : Int) : MState :=
  let s1 := { s with entries := loadHistory s.store }
  let s2 := cleanupOldEntries s1 now
  { s2 with lastClipboardContent := clip }

/-- State-changing operations of the engine, with the external inputs
(clipboard read result, fresh id, current time) as payload. -/
inductive Op where
  | tick (current : String) (newId : String) (now : Int)
  | add (content : String) (sourceFile : Option String) (newId : String) (now : Int)
  | delete (id : String)
  | toggle (id : String)
  | clear
  | cleanup (now : Int)
  | setConfig (cfg : ClipboardManagerConfig)
  | copyTo (id : String)
  | session (clip : String) (now : Int)

/-- One engine step. -/
def step (s : MState) : Op → MState
  | .tick current newId now => checkClipboard s current newId now
  | .add content sf newId now => addEntry s content sf newId now
  | .delete id => deleteEntry s id
  | .toggle id => togglePin s id
  | .clear => clearHistory s
  | .cleanup now => cleanupOldEntries s now
  | .setConfig cfg => updateConfig s cfg
  | .copyTo id => copyToClipboard s id
  | .session clip now => initSession s clip now

/-- Fresh-install state of the manager: empty list, empty baseline, no
stored record, no effects yet. -/
def initState (cfg : ClipboardManagerConfig) : MState :=
  { entries := []
    lastClipboardContent := ""
    config := cfg
    store := none
    clipboardWrites := []
    notifyCount := 0
    saveCount := 0
    messageCount := 0 }

/-- States reachable through the engine operations. -/
inductive Reachable : MState → Prop where
  | init (cfg : ClipboardManagerConfig) : Reachable (initState cfg)
  | step {s : MState} (op : Op) : Reachable s → Reachable (step s op)

/-- States reachable through polling ticks alone. -/
inductive TickReachable : MState → Prop where
  | init (cfg : ClipboardManagerConfig) : TickReachable (initState cfg)
  | tick {s : MState} (current newId : String) (now : Int) :
      TickReachable s → TickReachable (checkClipboard s current newId now)

/-- All pinned entries precede all unpinned entries. -/
def PinnedFirst (l : List ClipboardEntry) : Prop :=
  l.Pairwise (fun a b => b.isPinned = true → a.isPinned = true)

/-- The first two entries of the list, when both exist, have distinct
content. -/
def FirstTwoDistinct (l : List ClipboardEntry) : Prop :=
  match l with
  | a :: b :: _ => a.content ≠ b.content
  | _ => True

instance : (l : List ClipboardEntry) → Decidable (FirstTwoDistinct l)
  | [] => isTrue trivial
  | [_] => isTrue trivial
  | a :: b :: _ => inferInstanceAs (Decidable (a.content ≠ b.content))

/-- Every entry is unpinned. -/
def AllUnpinned (l : List ClipboardEntry) : Prop :=
  ∀ e ∈ l, e.isPinned = false

/-- Number of unpinned entries, as the code computes it. -/
def countUnpinned (l : List ClipboardEntry) : Nat :=
  (l.filter (fun e => !e.isPinned)).length

/-- Strict version of the togglePin comparator order: earlier pin rank,
or equal pin rank and strictly larger timestamp. -/
def pinLt (a b : ClipboardEntry) : Prop :=
  (a.isPinned = true ∧ b.isPinned = false) ∨
    (a.isPinned = b.isPinned ∧ b.timestamp < a.timestamp)

instance : DecidableRel pinLt := fun a b =>
  inferInstanceAs (Decidable (_ ∨ _))

/-- Operations of the claimed capacity-invariant list other than
togglePin and updateConfig. -/
def CapOp : Op → Prop
  | .tick _ _ _ => True
  | .add _ _ _ _ => True
  | .delete _ => True
  | .clear => True
  | .cleanup _ => True
  | _ => False

/-- The stored record, when present and well-formed, holds a
pinned-first list (auxiliary invariant carried through reachability). -/
def StoreInv (s : MState) : Prop :=
  ∀ r, s.store = some r → ∀ es, r.entries = some es → PinnedFirst es

/-- Flip the isPinned flag of one entry. -/
def flipPin (e : ClipboardEntry) : ClipboardEntry :=
  { e with isPinned := !e.isPinned }

/-- Pointwise form of toggleFirst: flip the entry when its id matches.
Under unique ids, mapping this over the list agrees with toggleFirst. -/
def toggleIf (id : String) (e : ClipboardEntry) : ClipboardEntry :=
  if e.id = id then flipPin e else e

/-- A sample configuration with no exclusion patterns. -/
def cfgN (maxSize : Nat) : ClipboardManagerConfig :=
  { maxHistorySize := maxSize
    showTimestamp := true
    enableNotifications := false
    autoCleanupDays := 7
    excludePatterns := []
    monitoringInterval := 1000
    previewLength := 50 }

/-- A sample pinned entry used in concrete instantiations. -/
def sampleEntry : ClipboardEntry :=
  { id := "w1", content := "hello", timestamp := 42, isPinned := true,
    sourceFile := none, lineCount := 1, contentType := .text }

/-- An unpinned entry whose timestamp sits exactly on a cleanup cutoff. -/
def e5 : ClipboardEntry :=
  { id := "e5", content := "old", timestamp := 0, isPinned := false,
    sourceFile := none, lineCount := 1, contentType := .text }

/-- State holding only e5, with the default 7-day cleanup window. -/
def s5 : MState :=
  { initState (cfgN 100) with entries := [e5] }

/-- Head entry for the duplicate-suppression instantiation. -/
def e3 : ClipboardEntry := mkEntry "i3" "x" 1 none

/-- State whose head entry has content x while the baseline differs. -/
def s3 : MState :=
  { initState (cfgN 100) with entries := [e3], lastClipboardContent := "p" }

/-- State holding one entry, used for the unknown-id instantiations. -/
def s9 : MState :=
  { initState (cfgN 100) with entries := [sampleEntry] }

/-- Reachable trace: capture a, b, c, pin c, then pin a; the list ends as
pinned c, pinned a, unpinned b. -/
def c6state : MState :=
  step (step (step (step (step (initState (cfgN 100))
    (.tick "a" "ida" 1)) (.tick "b" "idb" 2)) (.tick "c" "idc" 3))
    (.toggle "idc")) (.toggle "ida")

/-- A pinned-first list whose two pinned candidates are out of timestamp
order: b is older than the already pinned partition would allow at the
front. -/
def s6w : MState :=
  { initState (cfgN 100) with entries :=
      [{ id := "a", content := "A", timestamp := 10, isPinned := true,
         sourceFile := none, lineCount := 1, contentType := .text },
       { id := "b", content := "B", timestamp := 5, isPinned := false,
         sourceFile := none, lineCount := 1, contentType := .text }] }

/-- Reachable trace: two captures under cap 2, then a configuration
update lowering the cap to 1. -/
def c1state : MState :=
  step (step (step (initState (cfgN 2))
    (.add "a" none "id1" 1)) (.add "b" none "id2" 2)) (.setConfig (cfgN 1))

/-- Reachable trace: capture x, capture p, pin p, then a tick reading x
again; the duplicate check compares x against the pinned head p. -/
def c4state : MState :=
  step (step (step (step (initState (cfgN 100))
    (.tick "x" "id1" 1)) (.tick "p" "id2" 2)) (.toggle "id2")) (.tick "x" "id3" 3)

/-- Two unpinned entries listed against timestamp order. -/
def s7cex : MState :=
  { initState (cfgN 100) with entries :=
      [{ id := "b", content := "B", timestamp := 5, isPinned := false,
         sourceFile := none, lineCount := 1, contentType := .text },
       { id := "a", content := "A", timestamp := 10, isPinned := false,
         sourceFile := none, lineCount := 1, contentType := .text }] }

/-- Tick-only trace: two ticks reading x then y on a fresh state. -/
def t4w : MState :=
  checkClipboard (checkClipboard (initState (cfgN 100)) "x" "i1" 1) "y" "i2" 2

/-- A comparator-sorted list with pairwise distinct ids and timestamps. -/
def s7w : MState :=
  { initState (cfgN 100) with entries :=
      [{ id := "a", content := "A", timestamp := 10, isPinned := false,
         sourceFile := none, lineCount := 1, contentType := .text },
       { id := "b", content := "B", timestamp := 5, isPinned := false,
         sourceFile := none, lineCount := 1, contentType := .text }] }

/-! ### Helper lemmas -/

instance : IsTotal ClipboardEntry pinLe := by
  constructor
  intro a b
  unfold pinLe jsCompare
  cases ha : a.isPinned <;> cases hb : b.isPinned <;> simp <;> omega

instance : IsTrans ClipboardEntry pinLe := by
  constructor
  intro a b c hab hbc
  unfold pinLe jsCompare at *
  cases ha : a.isPinned <;> cases hb : b.isPinned <;> cases hc : c.isPinned <;>
    simp [ha, hb, hc] at * <;> omega

theorem sortEntries_sorted (l : List ClipboardEntry) :
    List.Sorted pinLe (sortEntries l) :=
  List.sorted_insertionSort pinLe l

theorem sortEntries_perm (l : List ClipboardEntry) :
    (sortEntries l).Perm l :=
  List.perm_insertionSort pinLe l

theorem pinLe_pin {a b : ClipboardEntry} (h : pinLe a b) :
    b.isPinned = true → a.isPinned = true := by
  intro hb
  unfold pinLe jsCompare at h
  cases ha : a.isPinned
  · rw [ha, hb] at h; simp at h
  · rfl

theorem pinLe_ts {a b : ClipboardEntry} (h : pinLe a b) :
    a.isPinned = b.isPinned → b.timestamp ≤ a.timestamp := by
  intro hab
  unfold pinLe jsCompare at h
  cases ha : a.isPinned <;> rw [ha] at hab <;> rw [ha, ← hab] at h <;> simp at h <;> omega

theorem pinnedFirst_sortEntries (l : List ClipboardEntry) :
    PinnedFirst (sortEntries l) :=
  List.Pairwise.imp (fun hab => pinLe_pin hab) (sortEntries_sorted l)

theorem pinnedFirst_capEntries (cfg : ClipboardManagerConfig)
    (l : List ClipboardEntry) : PinnedFirst (capEntries cfg l) := by
  unfold PinnedFirst capEntries
  rw [List.pairwise_append]
  refine ⟨?_, ?_, ?_⟩
  · exact List.pairwise_of_forall_mem_list
      (fun a ha b _ _ => by simpa using (List.mem_filter.mp ha).2)
  · refine List.pairwise_of_forall_mem_list (fun a _ b hb hbp => ?_)
    have hb2 := (List.mem_filter.mp ((List.take_sublist _ _).subset hb)).2
    rw [hbp] at hb2
    simp at hb2
  · exact fun a ha b _ _ => by simpa using (List.mem_filter.mp ha).2

theorem countUnpinned_capEntries (cfg : ClipboardManagerConfig)
    (l : List ClipboardEntry) :
    countUnpinned (capEntries cfg l) ≤ cfg.maxHistorySize := by
  unfold countUnpinned capEntries
  rw [List.filter_append]
  have h1 : (l.filter (fun e => e.isPinned)).filter (fun e => !e.isPinned) = [] := by
    rw [List.filter_eq_nil_iff]
    intro a ha
    have := (List.mem_filter.mp ha).2
    simp_all
  have h2 : ((l.filter (fun e => !e.isPinned)).take cfg.maxHistorySize).filter
      (fun e => !e.isPinned) =
      (l.filter (fun e => !e.isPinned)).take cfg.maxHistorySize := by
    rw [List.filter_eq_self]
    intro a ha
    exact (List.mem_filter.mp ((List.take_sublist _ _).subset ha)).2
  rw [h1, h2]
  simp [List.length_take]

theorem countUnpinned_sublist {l1 l2 : List ClipboardEntry}
    (h : l1.Sublist l2) : countUnpinned l1 ≤ countUnpinned l2 :=
  (h.filter _).length_le

theorem countUnpinned_addEntry (s : MState) (content : String)
    (sf : Option String) (newId : String) (now : Int) :
    countUnpinned (addEntry s content sf newId now).entries ≤
      (addEntry s content sf newId now).config.maxHistorySize :=
  countUnpinned_capEntries s.config _

theorem mem_addEntry {s : MState} {content : String} {sf : Option String}
    {newId : String} {now : Int} {e : ClipboardEntry}
    (he : e ∈ (addEntry s content sf newId now).entries) :
    e ∈ s.entries ∨ e = mkEntry newId content now sf := by
  unfold addEntry capEntries at he
  rcases List.mem_append.mp he with h | h
  · have h2 := (List.mem_filter.mp h).1
    rcases List.mem_cons.mp h2 with h3 | h3
    · exact Or.inr h3
    · exact Or.inl h3
  · have h2 := (List.mem_filter.mp ((List.take_sublist _ _).subset h)).1
    rcases List.mem_cons.mp h2 with h3 | h3
    · exact Or.inr h3
    · exact Or.inl h3

/-! ### C8: persistence round-trip -/

/-- C8: saving a history and loading it back returns the identical list
(ids, content, pin flags, order), for any non-empty list; loading from an
absent record, or from a record lacking the entries field, returns the
empty list without raising. -/
theorem storage_roundtrip (st : Option SerializedHistory)
    (X : List ClipboardEntry) (hX : X ≠ []) :
    loadHistory (saveHistory st X) = X ∧
    loadHistory (none : Option SerializedHistory) = [] ∧
    (∀ v : String, loadHistory (some { entries := none, version := v }) = []) :=
  ⟨rfl, rfl, fun _ => rfl⟩

/-- C8 witness: the round-trip evaluated on a concrete one-entry list. -/
theorem storage_roundtrip_witness :
    ([sampleEntry] ≠ ([] : List ClipboardEntry)) ∧
    loadHistory (saveHistory none [sampleEntry]) = [sampleEntry] :=
  ⟨by decide, (storage_roundtrip none [sampleEntry] (by decide)).1⟩

/-! ### C9: unknown-id operations are silent no-ops -/

/-- C9: when no entry carries the id, deleteEntry, togglePin and
copyToClipboard each leave the whole state unchanged: same list, no save,
no change notification, no clipboard write, no message, no error. -/
theorem unknown_id_noop (s : MState) (id : String)
    (h : ∀ e ∈ s.entries, e.id ≠ id) :
    deleteEntry s id = s ∧ togglePin s id = s ∧ copyToClipboard s id = s := by
  have hany : s.entries.any (fun e => e.id == id) = false := by
    rw [List.any_eq_false]
    intro e he
    simpa using h e he
  have hfind : s.entries.find? (fun e => e.id == id) = none := by
    rw [List.find?_eq_none]
    intro e he
    simpa using h e he
  refine ⟨?_, ?_, ?_⟩
  · unfold deleteEntry
    simp [hany]
  · unfold togglePin
    simp [hany]
  · unfold copyToClipboard
    rw [hfind]

/-- C9 witness: the three operations on an id absent from a concrete
one-entry state. -/
theorem unknown_id_noop_witness :
    (∀ e ∈ s9.entries, e.id ≠ "zz") ∧
    deleteEntry s9 "zz" = s9 ∧ togglePin s9 "zz" = s9 ∧
    copyToClipboard s9 "zz" = s9 :=
  ⟨by decide, unknown_id_noop s9 "zz" (by decide)⟩

/-! ### C10: empty clipboard reads change nothing -/

/-- C10: a polling tick that reads the empty string leaves the entire
state unchanged (entries, baseline, store, notifications, messages), even
when the baseline is a different non-empty string; and any entry present
after any tick was either already present or carries the non-empty text
read by that tick, so the polling path never creates an empty entry. -/
theorem empty_read_noop (s : MState) (newId : String) (now : Int) :
    checkClipboard s "" newId now = s ∧
    (∀ current : String, ∀ e ∈ (checkClipboard s current newId now).entries,
      e ∈ s.entries ∨ (e.content = current ∧ current ≠ "")) := by
  constructor
  · unfold checkClipboard
    simp
  · intro current e he
    unfold checkClipboard at he
    split at he
    case isTrue hcond =>
      split at he
      · exact Or.inl he
      · split at he
        · split at he
          · exact Or.inl he
          · rcases mem_addEntry he with h | h
            · exact Or.inl h
            · exact Or.inr ⟨by rw [h]; rfl, hcond.1⟩
        · rcases mem_addEntry he with h | h
          · exact Or.inl h
          · exact Or.inr ⟨by rw [h]; rfl, hcond.1⟩
    case isFalse => exact Or.inl he

/-- C10 witness: the empty read on a concrete state with a non-empty
baseline, and the second clause evaluated on the entry produced by a
concrete non-empty tick. -/
theorem empty_read_noop_witness :
    checkClipboard s3 "" "i9" 9 = s3 ∧
    (mkEntry "i9" "y" 9 none ∈ (checkClipboard s3 "y" "i9" 9).entries →
      mkEntry "i9" "y" 9 none ∈ s3.entries ∨
        ((mkEntry "i9" "y" 9 none).content = "y" ∧ "y" ≠ "")) :=
  ⟨(empty_read_noop s3 "i9" 9).1,
   fun hm => (empty_read_noop s3 "i9" 9).2 "y" (mkEntry "i9" "y" 9 none) hm⟩

/-! ### C3: duplicate-of-head suppression -/

/-- C3: when the clipboard read equals the content of the current head
entry, a polling tick leaves the entry list exactly as it was: nothing is
added, the length is unchanged, and no entry elsewhere in the history is
touched (whatever path the tick takes: unchanged baseline, exclusion, or
the duplicate check against the head). -/
theorem tick_duplicate_head_noop (s : MState) (e : ClipboardEntry)
    (t : List ClipboardEntry) (current newId : String) (now : Int)
    (hE : s.entries = e :: t) (hc : e.content = current) :
    getEntries (checkClipboard s current newId now) = getEntries s := by
  unfold checkClipboard getEntries
  split
  · split
    · rfl
    · rw [hE]
      simp [hc]
  · rfl

/-- C3 witness: a tick reading x on a state whose head entry has content
x and whose baseline is p. -/
theorem tick_duplicate_head_noop_witness :
    s3.entries = [e3] ∧ e3.content = "x" ∧
    getEntries (checkClipboard s3 "x" "i9" 9) = getEntries s3 :=
  ⟨rfl, rfl, tick_duplicate_head_noop s3 e3 [] "x" "i9" 9 rfl rfl⟩

/-! ### C5: the initialization cleanup sweep -/

/-- C5 counterexample: an unpinned entry whose timestamp equals the
cutoff instant (so it is not older than the cutoff, and the claim says it
is kept if and only if it is pinned or not older) is nevertheless removed
by the sweep, because the code keeps only entries strictly newer than the
cutoff. -/
theorem cleanup_boundary_cex :
    e5.isPinned = false ∧
    cutoffTime s5.config 604800000 = 0 ∧
    e5.timestamp = 0 ∧
    (cleanupOldEntries s5 604800000).entries = [] :=
  ⟨rfl, by decide, rfl, by decide⟩

/-- C5 amended: the sweep keeps exactly the entries that are pinned or
strictly newer than the cutoff instant now minus autoCleanupDays days (so
an unpinned entry whose timestamp is older than or equal to the cutoff is
removed; a pinned entry survives regardless of age); survivors keep their
relative order (the result is a sublist); and a save to storage happens
if and only if at least one entry was removed. -/
theorem cleanup_sweep_amended (s : MState) (now : Int) :
    ((cleanupOldEntries s now).entries).Sublist s.entries ∧
    (∀ e ∈ s.entries,
      (e ∈ (cleanupOldEntries s now).entries ↔
        e.isPinned = true ∨ e.timestamp > cutoffTime s.config now)) ∧
    ((∃ e ∈ s.entries, e.isPinned = false ∧ e.timestamp ≤ cutoffTime s.config now) ↔
      (cleanupOldEntries s now).saveCount = s.saveCount + 1) := by
  have hent : (cleanupOldEntries s now).entries =
      s.entries.filter
        (fun e => e.isPinned || decide (e.timestamp > cutoffTime s.config now)) := by
    unfold cleanupOldEntries
    dsimp only
    split <;> rfl
  refine ⟨?_, ?_, ?_⟩
  · rw [hent]
    exact List.filter_sublist s.entries
  · intro e he
    rw [hent]
    constructor
    · intro hm
      have := (List.mem_filter.mp hm).2
      simpa using this
    · intro hp
      exact List.mem_filter.mpr ⟨he, by simpa using hp⟩
  · have hlen : (∃ e ∈ s.entries,
        e.isPinned = false ∧ e.timestamp ≤ cutoffTime s.config now) ↔
        (s.entries.filter
          (fun e => e.isPinned || decide (e.timestamp > cutoffTime s.config now))).length <
          s.entries.length := by
      rw [List.length_filter_lt_length_iff_exists]
      constructor
      · rintro ⟨e, he, h1, h2⟩
        exact ⟨e, he, by simp [h1]; omega⟩
      · rintro ⟨e, he, hne⟩
        simp at hne
        exact ⟨e, he, hne.1, by omega⟩
    rw [hlen]
    unfold cleanupOldEntries
    dsimp only
    split
    case isTrue hlt => exact iff_of_true hlt rfl
    case isFalse hge => exact iff_of_false hge (fun h2 => Nat.succ_ne_self _ h2.symm)

/-- C5 witness: the amended keep-condition and the persist-iff clause
evaluated on the concrete one-entry state whose entry sits on the
cutoff. -/
theorem cleanup_sweep_amended_witness :
    (e5 ∈ s5.entries) ∧
    (e5 ∈ (cleanupOldEntries s5 604800000).entries ↔
      e5.isPinned = true ∨ e5.timestamp > cutoffTime s5.config 604800000) ∧
    ((∃ e ∈ s5.entries,
        e.isPinned = false ∧ e.timestamp ≤ cutoffTime s5.config 604800000) ↔
      (cleanupOldEntries s5 604800000).saveCount = s5.saveCount + 1) :=
  ⟨by decide, (cleanup_sweep_amended s5 604800000).2.1 e5 (by decide),
    (cleanup_sweep_amended s5 604800000).2.2⟩

/-! ### C6: what togglePin does to the order -/

/-- C6 counterexample: a reachable trace (capture a, b, c; pin c; pin a)
in which the newly pinned entry ida does not move to the front of the
pinned partition: the re-sort orders the pinned partition by timestamp,
so idc (newer) stays in front of ida. -/
theorem togglePin_front_cex :
    Reachable c6state ∧
    c6state.entries.map (fun e => e.id) = ["idc", "ida", "idb"] ∧
    c6state.entries.map (fun e => e.isPinned) = [true, true, false] :=
  ⟨Reachable.step (Op.toggle "ida")
      (Reachable.step (Op.toggle "idc")
        (Reachable.step (Op.tick "c" "idc" 3)
          (Reachable.step (Op.tick "b" "idb" 2)
            (Reachable.step (Op.tick "a" "ida" 1)
              (Reachable.init (cfgN 100)))))),
    by decide, by decide⟩

/-- C6 amended: for an id present in the list, togglePin flips that
entry's isPinned flag in place and re-sorts the whole list with the
comparator: the result is a permutation of the flag-flipped list in which
every pinned entry precedes every unpinned entry and, within equal pin
status, timestamps are non-increasing. A newly pinned entry is therefore
placed inside the pinned partition by its timestamp, not necessarily at
the front, and each partition is in timestamp order rather than
necessarily its prior insertion order. -/
theorem togglePin_resort_amended (s : MState) (id : String)
    (h : s.entries.any (fun e => e.id == id) = true) :
    ((togglePin s id).entries).Perm (toggleFirst id s.entries) ∧
    ((togglePin s id).entries).Pairwise
      (fun a b => (b.isPinned = true → a.isPinned = true) ∧
        (a.isPinned = b.isPinned → b.timestamp ≤ a.timestamp)) := by
  unfold togglePin
  simp only [h, if_true]
  constructor
  · exact sortEntries_perm _
  · exact List.Pairwise.imp (fun hab => ⟨pinLe_pin hab, pinLe_ts hab⟩)
      (sortEntries_sorted _)

/-- C6 witness: the amended ordering facts evaluated by pinning b in a
concrete two-entry list. -/
theorem togglePin_resort_amended_witness :
    (s6w.entries.any (fun e => e.id == "b") = true) ∧
    ((togglePin s6w "b").entries).Perm (toggleFirst "b" s6w.entries) :=
  ⟨by decide, (togglePin_resort_amended s6w "b" (by decide)).1⟩

/-! ### C1: the unpinned-count cap -/

/-- C1 counterexample: a reachable trace (two captures under cap 2, then
updateConfig lowering the cap to 1) after which the number of unpinned
entries exceeds the configured maxHistorySize: updateConfig does not
re-enforce the cap (and likewise unpinning via togglePin can exceed it). -/
theorem cap_invariant_cex :
    Reachable c1state ∧
    c1state.config.maxHistorySize = 1 ∧
    countUnpinned c1state.entries = 2 :=
  ⟨Reachable.step (Op.setConfig (cfgN 1))
      (Reachable.step (Op.add "b" none "id2" 2)
        (Reachable.step (Op.add "a" none "id1" 1)
          (Reachable.init (cfgN 2)))),
    by decide, by decide⟩

/-- C1 amended: the unpinned-count bound holds after the capture
pipeline (polling tick), addEntry, deleteEntry, clearHistory and the
cleanup sweep, from any state satisfying it (addEntry and ticks enforce
the cap unconditionally); togglePin and updateConfig are excluded because
unpinning an entry and lowering the cap do not re-enforce the bound. -/
theorem cap_invariant_amended (s : MState) (op : Op) (hop : CapOp op)
    (h : countUnpinned s.entries ≤ s.config.maxHistorySize) :
    countUnpinned (step s op).entries ≤ (step s op).config.maxHistorySize := by
  cases op with
  | tick current newId now =>
    show countUnpinned (checkClipboard s current newId now).entries ≤
      (checkClipboard s current newId now).config.maxHistorySize
    unfold checkClipboard
    split
    · split
      · exact h
      · split
        · split
          · exact h
          · exact countUnpinned_addEntry _ _ _ _ _
        · exact countUnpinned_addEntry _ _ _ _ _
    · exact h
  | add content sf newId now => exact countUnpinned_addEntry _ _ _ _ _
  | delete id =>
    show countUnpinned (deleteEntry s id).entries ≤
      (deleteEntry s id).config.maxHistorySize
    unfold deleteEntry
    split
    · exact le_trans (countUnpinned_sublist (List.eraseP_sublist _)) h
    · exact h
  | clear => simpa [step, clearHistory, countUnpinned] using Nat.zero_le _
  | cleanup now =>
    show countUnpinned (cleanupOldEntries s now).entries ≤
      (cleanupOldEntries s now).config.maxHistorySize
    unfold cleanupOldEntries
    dsimp only
    split
    · exact le_trans (countUnpinned_sublist (List.filter_sublist _)) h
    · exact le_trans (countUnpinned_sublist (List.filter_sublist _)) h
  | toggle id => exact hop.elim
  | setConfig cfg => exact hop.elim
  | copyTo id => exact hop.elim
  | session clip now => exact hop.elim

/-- C1 witness: the amended preservation applied to a concrete add on
the fresh state. -/
theorem cap_invariant_amended_witness :
    CapOp (Op.add "a" none "i1" 1) ∧
    countUnpinned (initState (cfgN 100)).entries ≤
      (initState (cfgN 100)).config.maxHistorySize ∧
    countUnpinned (step (initState (cfgN 100)) (Op.add "a" none "i1" 1)).entries ≤
      (step (initState (cfgN 100)) (Op.add "a" none "i1" 1)).config.maxHistorySize :=
  ⟨trivial, by decide,
    cap_invariant_amended (initState (cfgN 100)) (Op.add "a" none "i1" 1)
      trivial (by decide)⟩

/-! ### C2: pinned entries always precede unpinned entries -/

theorem storeInv_of_save (st : Option SerializedHistory) (l : List ClipboardEntry)
    {s2 : MState} (hs : s2.store = saveHistory st l) (hl : PinnedFirst l) :
    StoreInv s2 := by
  intro r hr es hes
  rw [hs] at hr
  unfold saveHistory at hr
  cases hr
  cases hes
  exact hl

theorem pinnedFirst_loadHistory {s : MState} (hst : StoreInv s) :
    PinnedFirst (loadHistory s.store) := by
  unfold loadHistory
  split
  · exact List.Pairwise.nil
  · next d heq =>
    split
    · exact List.Pairwise.nil
    · next es heq2 => exact hst d heq es heq2

theorem addEntry_inv (s : MState) (content : String) (sf : Option String)
    (newId : String) (now : Int) :
    PinnedFirst (addEntry s content sf newId now).entries ∧
      StoreInv (addEntry s content sf newId now) :=
  ⟨pinnedFirst_capEntries _ _,
    storeInv_of_save s.store _ rfl (pinnedFirst_capEntries _ _)⟩

theorem tick_inv {s : MState} (hpf : PinnedFirst s.entries) (hst : StoreInv s)
    (current newId : String) (now : Int) :
    PinnedFirst (checkClipboard s current newId now).entries ∧
      StoreInv (checkClipboard s current newId now) := by
  unfold checkClipboard
  split
  · split
    · exact ⟨hpf, hst⟩
    · split
      · split
        · exact ⟨hpf, hst⟩
        · exact addEntry_inv _ _ _ _ _
      · exact addEntry_inv _ _ _ _ _
  · exact ⟨hpf, hst⟩

theorem delete_inv {s : MState} (hpf : PinnedFirst s.entries) (hst : StoreInv s)
    (id : String) :
    PinnedFirst (deleteEntry s id).entries ∧ StoreInv (deleteEntry s id) := by
  unfold deleteEntry
  split
  · have h2 : PinnedFirst (s.entries.eraseP (fun e => e.id == id)) :=
      List.Pairwise.sublist (List.eraseP_sublist _) hpf
    exact ⟨h2, storeInv_of_save s.store _ rfl h2⟩
  · exact ⟨hpf, hst⟩

theorem toggle_inv {s : MState} (hpf : PinnedFirst s.entries) (hst : StoreInv s)
    (id : String) :
    PinnedFirst (togglePin s id).entries ∧ StoreInv (togglePin s id) := by
  unfold togglePin
  split
  · exact ⟨pinnedFirst_sortEntries _,
      storeInv_of_save s.store _ rfl (pinnedFirst_sortEntries _)⟩
  · exact ⟨hpf, hst⟩

theorem clear_inv (s : MState) :
    PinnedFirst (clearHistory s).entries ∧ StoreInv (clearHistory s) :=
  ⟨List.Pairwise.nil, fun r hr => by cases hr⟩

theorem cleanup_inv {s : MState} (hpf : PinnedFirst s.entries) (hst : StoreInv s)
    (now : Int) :
    PinnedFirst (cleanupOldEntries s now).entries ∧
      StoreInv (cleanupOldEntries s now) := by
  unfold cleanupOldEntries
  dsimp only
  split
  · have h2 : PinnedFirst (s.entries.filter
        (fun e => e.isPinned || decide (e.timestamp > cutoffTime s.config now))) :=
      List.Pairwise.sublist (List.filter_sublist _) hpf
    exact ⟨h2, storeInv_of_save s.store _ rfl h2⟩
  · exact ⟨List.Pairwise.sublist (List.filter_sublist _) hpf, hst⟩

theorem copy_inv {s : MState} (hpf : PinnedFirst s.entries) (hst : StoreInv s)
    (id : String) :
    PinnedFirst (copyToClipboard s id).entries ∧ StoreInv (copyToClipboard s id) := by
  unfold copyToClipboard
  cases s.entries.find? (fun e => e.id == id) with
  | some entry => exact ⟨hpf, hst⟩
  | none => exact ⟨hpf, hst⟩

theorem session_inv {s : MState} (hst : StoreInv s) (clip : String) (now : Int) :
    PinnedFirst (initSession s clip now).entries ∧ StoreInv (initSession s clip now) := by
  unfold initSession
  dsimp only
  have h1 : PinnedFirst ({ s with entries := loadHistory s.store } : MState).entries :=
    pinnedFirst_loadHistory hst
  have h2 := cleanup_inv (s := { s with entries := loadHistory s.store }) h1 hst now
  exact ⟨h2.1, h2.2⟩

theorem reachable_inv {s : MState} (h : Reachable s) :
    PinnedFirst s.entries ∧ StoreInv s := by
  induction h with
  | init cfg => exact ⟨List.Pairwise.nil, fun r hr => by cases hr⟩
  | step op hr ih =>
    obtain ⟨hpf, hst⟩ := ih
    cases op with
    | tick current newId now => exact tick_inv hpf hst current newId now
    | add content sf newId now => exact addEntry_inv _ content sf newId now
    | delete id => exact delete_inv hpf hst id
    | toggle id => exact toggle_inv hpf hst id
    | clear => exact clear_inv _
    | cleanup now => exact cleanup_inv hpf hst now
    | setConfig cfg => exact ⟨hpf, hst⟩
    | copyTo id => exact copy_inv hpf hst id
    | session clip now => exact session_inv hst clip now

/-- C2: in every reachable engine state (hence after every completed
engine operation, including sessions reloaded from the persisted store),
every pinned entry precedes every unpinned entry in the list returned by
getEntries. -/
theorem pinned_precede_unpinned (s : MState) (h : Reachable s) :
    PinnedFirst (getEntries s) :=
  (reachable_inv h).1

/-- C2 witness: the invariant evaluated on the concrete reachable trace
that captures a, b, c and pins c then a. -/
theorem pinned_precede_unpinned_witness : PinnedFirst (getEntries c6state) :=
  pinned_precede_unpinned c6state
    (Reachable.step (Op.toggle "ida")
      (Reachable.step (Op.toggle "idc")
        (Reachable.step (Op.tick "c" "idc" 3)
          (Reachable.step (Op.tick "b" "idb" 2)
            (Reachable.step (Op.tick "a" "ida" 1)
              (Reachable.init (cfgN 100)))))))

/-! ### C4: no duplicate pair at the head of the unpinned segment -/

theorem allUnpinned_addEntry {s : MState} {content : String} {sf : Option String}
    {newId : String} {now : Int} (h1 : AllUnpinned s.entries) :
    AllUnpinned (addEntry s content sf newId now).entries := by
  intro e he
  rcases mem_addEntry he with h | h
  · exact h1 e h
  · rw [h]; rfl

theorem addEntry_entries_of_allUnpinned {s : MState} (content : String)
    (sf : Option String) (newId : String) (now : Int) (h1 : AllUnpinned s.entries) :
    (addEntry s content sf newId now).entries =
      (mkEntry newId content now sf :: s.entries).take s.config.maxHistorySize := by
  have hall : AllUnpinned (mkEntry newId content now sf :: s.entries) := by
    intro e he
    rcases List.mem_cons.mp he with h | h
    · rw [h]; rfl
    · exact h1 e h
  show capEntries s.config (mkEntry newId content now sf :: s.entries) = _
  unfold capEntries
  have hp : (mkEntry newId content now sf :: s.entries).filter
      (fun e => e.isPinned) = [] := by
    rw [List.filter_eq_nil_iff]
    intro a ha
    simp [hall a ha]
  have hu : (mkEntry newId content now sf :: s.entries).filter
      (fun e => !e.isPinned) = mkEntry newId content now sf :: s.entries := by
    rw [List.filter_eq_self]
    intro a ha
    simp [hall a ha]
  rw [hp, hu]
  rw [List.nil_append]

theorem firstTwo_take (n : Nat) (l : List ClipboardEntry)
    (h : FirstTwoDistinct l) : FirstTwoDistinct (l.take n) := by
  match n, l with
  | 0, _ => exact True.intro
  | m+1, [] => exact True.intro
  | m+1, [a] =>
    show FirstTwoDistinct (a :: List.take m [])
    rw [List.take_nil]
    exact True.intro
  | 1, a :: b :: t => exact True.intro
  | m+2, a :: b :: t => exact h

theorem addEntry_firstTwo {s : MState} {content : String} {sf : Option String}
    {newId : String} {now : Int} (h1 : AllUnpinned s.entries)
    (hhead : ∀ e t, s.entries = e :: t → e.content ≠ content) :
    FirstTwoDistinct (addEntry s content sf newId now).entries := by
  rw [addEntry_entries_of_allUnpinned content sf newId now h1]
  apply firstTwo_take
  cases hE : s.entries with
  | nil => exact True.intro
  | cons e t => exact fun hcon => hhead e t hE hcon.symm

theorem tick_unpinned_inv {s : MState} (h1 : AllUnpinned s.entries)
    (h2 : FirstTwoDistinct s.entries) (current newId : String) (now : Int) :
    AllUnpinned (checkClipboard s current newId now).entries ∧
      FirstTwoDistinct (checkClipboard s current newId now).entries := by
  unfold checkClipboard
  split
  case isTrue hcond =>
    split
    · exact ⟨h1, h2⟩
    · split
      case h_1 e t heq =>
        split
        case isTrue => exact ⟨h1, h2⟩
        case isFalse hne =>
          refine ⟨allUnpinned_addEntry h1, addEntry_firstTwo h1 ?_⟩
          intro e2 t2 hE2
          have h3 := heq.symm.trans hE2
          injection h3 with h4 _
          rw [← h4]
          exact fun hc => hne hc
      case h_2 heq =>
        refine ⟨allUnpinned_addEntry h1, addEntry_firstTwo h1 ?_⟩
        intro e2 t2 hE2
        rw [heq] at hE2
        simp at hE2
  case isFalse => exact ⟨h1, h2⟩

theorem tickReachable_inv {s : MState} (h : TickReachable s) :
    AllUnpinned s.entries ∧ FirstTwoDistinct s.entries := by
  induction h with
  | init cfg => exact ⟨fun e he => absurd he (List.not_mem_nil e), True.intro⟩
  | tick current newId now h ih => exact tick_unpinned_inv ih.1 ih.2 current newId now

/-- C4 counterexample: the reachable trace capture x, capture p, pin p,
tick reading x again. The duplicate check compares the read x against
the overall head, which is the pinned entry p, so a second x entry is
added and the unpinned segment starts with two entries of identical
content. -/
theorem unpinned_head_distinct_cex :
    Reachable c4state ∧
    ((getEntries c4state).filter (fun e => !e.isPinned)).map (fun e => e.content) =
      ["x", "x"] :=
  ⟨Reachable.step (Op.tick "x" "id3" 3)
      (Reachable.step (Op.toggle "id2")
        (Reachable.step (Op.tick "p" "id2" 2)
          (Reachable.step (Op.tick "x" "id1" 1)
            (Reachable.init (cfgN 100))))),
    by decide⟩

/-- C4 amended: restricted to states reached by the polling capture
pipeline alone (no pin operations, hence no pinned entries), the first
two entries of the unpinned segment never have identical content. The
restriction is forced: once a pinned entry occupies the head of the
list, the duplicate check compares against it instead of the unpinned
head, and a tick can then place two equal-content entries at the front
of the unpinned segment. -/
theorem unpinned_head_distinct_amended (s : MState) (h : TickReachable s) :
    AllUnpinned (getEntries s) ∧
    FirstTwoDistinct ((getEntries s).filter (fun e => !e.isPinned)) := by
  obtain ⟨h1, h2⟩ := tickReachable_inv h
  refine ⟨h1, ?_⟩
  have hfe : (getEntries s).filter (fun e => !e.isPinned) = getEntries s := by
    rw [List.filter_eq_self]
    intro a ha
    simp [h1 a ha]
  rw [hfe]
  exact h2

/-- C4 witness: the amended invariant evaluated on the concrete
two-tick trace. -/
theorem unpinned_head_distinct_amended_witness :
    AllUnpinned (getEntries t4w) ∧
    FirstTwoDistinct ((getEntries t4w).filter (fun e => !e.isPinned)) :=
  unpinned_head_distinct_amended t4w
    (TickReachable.tick "y" "i2" 2
      (TickReachable.tick "x" "i1" 1 (TickReachable.init (cfgN 100))))

/-! ### C7: toggling a pin twice -/

theorem flipPin_flipPin (e : ClipboardEntry) : flipPin (flipPin e) = e := by
  cases e
  simp [flipPin]

theorem toggleIf_id (id : String) (e : ClipboardEntry) :
    (toggleIf id e).id = e.id := by
  unfold toggleIf flipPin
  split <;> rfl

theorem toggleIf_toggleIf (id : String) (e : ClipboardEntry) :
    toggleIf id (toggleIf id e) = e := by
  unfold toggleIf
  by_cases h : e.id = id
  · rw [if_pos h, if_pos (show (flipPin e).id = id from h), flipPin_flipPin]
  · rw [if_neg h, if_neg h]

theorem toggleFirst_eq_map {l : List ClipboardEntry} {id : String}
    (hids : l.Pairwise (fun a b => a.id ≠ b.id)) :
    toggleFirst id l = l.map (toggleIf id) := by
  induction l with
  | nil => rfl
  | cons e t ih =>
    rw [List.pairwise_cons] at hids
    obtain ⟨hhead, htail⟩ := hids
    unfold toggleFirst
    by_cases h : e.id = id
    · rw [if_pos h]
      simp only [List.map_cons]
      have he : toggleIf id e = { e with isPinned := !e.isPinned } := by
        unfold toggleIf flipPin
        rw [if_pos h]
      rw [he]
      have hmap : ∀ a ∈ t, toggleIf id a = a := by
        intro a ha
        unfold toggleIf
        rw [if_neg]
        exact fun hc => hhead a ha (h.trans hc.symm)
      have hmt : t.map (toggleIf id) = t := by
        calc t.map (toggleIf id) = t.map (fun a => a) := List.map_congr_left hmap
          _ = t := List.map_id' t
      rw [hmt]
    · rw [if_neg h]
      simp only [List.map_cons]
      have he : toggleIf id e = e := by
        unfold toggleIf
        rw [if_neg h]
      rw [he, ih htail]

theorem map_toggleIf_twice (id : String) (l : List ClipboardEntry) :
    (l.map (toggleIf id)).map (toggleIf id) = l := by
  induction l with
  | nil => rfl
  | cons e t ih =>
    simp only [List.map_cons]
    rw [toggleIf_toggleIf, ih]

instance : IsAntisymm ClipboardEntry pinLt := by
  constructor
  intro a b hab hba
  exfalso
  rcases hab with ⟨ha1, hb1⟩ | ⟨heq1, hts1⟩ <;>
    rcases hba with ⟨hb2, ha2⟩ | ⟨heq2, hts2⟩ <;> simp_all <;> omega

theorem pinLe_keyDiff_pinLt {a b : ClipboardEntry} (hle : pinLe a b)
    (hkd : ¬(a.isPinned = b.isPinned ∧ a.timestamp = b.timestamp)) :
    pinLt a b := by
  unfold pinLe jsCompare at hle
  unfold pinLt
  cases ha : a.isPinned <;> cases hb : b.isPinned <;>
    simp [ha, hb] at hle hkd ⊢ <;> omega

theorem pinLt_keyDiff {a b : ClipboardEntry} (h : pinLt a b) :
    ¬(a.isPinned = b.isPinned ∧ a.timestamp = b.timestamp) := by
  rcases h with ⟨ha, hb⟩ | ⟨heq, hts⟩
  · rintro ⟨hp, _⟩
    rw [ha, hb] at hp
    cases hp
  · rintro ⟨_, ht⟩
    rw [ht] at hts
    exact lt_irrefl _ hts

theorem togglePin_entries_of_any {s : MState} {id : String}
    (h : s.entries.any (fun e => e.id == id) = true)
    (hids : s.entries.Pairwise (fun a b => a.id ≠ b.id)) :
    (togglePin s id).entries = sortEntries (s.entries.map (toggleIf id)) := by
  unfold togglePin
  rw [if_pos h]
  dsimp only
  rw [toggleFirst_eq_map hids]

/-- C7 counterexample: two unpinned entries listed against timestamp
order. Toggling entry a twice re-sorts the list by timestamp both times,
so the observed order changes from b, a to a, b even though the pin flag
is restored: the prior relative order is not restored. -/
theorem togglePin_twice_cex :
    getEntries (togglePin (togglePin s7cex "a") "a") ≠ getEntries s7cex ∧
    (getEntries (togglePin (togglePin s7cex "a") "a")).map (fun e => e.id) =
      ["a", "b"] ∧
    (getEntries s7cex).map (fun e => e.id) = ["b", "a"] :=
  ⟨by decide, by decide, by decide⟩

/-- C7 amended: when the ids are pairwise distinct and the list is
already strictly ordered by the sort key (pinned before unpinned,
strictly descending timestamps within equal pin status — which forces
distinct sort keys), calling togglePin twice on the same id restores the
pin flag and the exact prior list, for any id, present or absent. -/
theorem togglePin_twice_amended (s : MState) (id : String)
    (hids : s.entries.Pairwise (fun a b => a.id ≠ b.id))
    (hsorted : s.entries.Pairwise pinLt) :
    getEntries (togglePin (togglePin s id) id) = getEntries s := by
  by_cases hpres : s.entries.any (fun e => e.id == id) = true
  case neg =>
    have h1 : togglePin s id = s := by
      unfold togglePin
      rw [if_neg hpres]
    rw [h1, h1]
  case pos =>
    have h1 := togglePin_entries_of_any hpres hids
    have hperm1 : (togglePin s id).entries.Perm (s.entries.map (toggleIf id)) := by
      rw [h1]
      exact sortEntries_perm _
    have hids1 : (togglePin s id).entries.Pairwise (fun a b => a.id ≠ b.id) := by
      have hm : (s.entries.map (toggleIf id)).Pairwise (fun a b => a.id ≠ b.id) := by
        rw [List.pairwise_map]
        exact hids.imp (fun hab => by
          rw [toggleIf_id, toggleIf_id]
          exact hab)
      exact (List.Perm.pairwise_iff (fun hab => hab.symm) hperm1).mpr hm
    have hpres1 : (togglePin s id).entries.any (fun e => e.id == id) = true := by
      rw [List.any_eq_true]
      obtain ⟨e, he, heid⟩ := List.any_eq_true.mp hpres
      refine ⟨toggleIf id e, ?_, ?_⟩
      · exact hperm1.mem_iff.mpr (List.mem_map.mpr ⟨e, he, rfl⟩)
      · rw [toggleIf_id]
        exact heid
    have h2 := togglePin_entries_of_any hpres1 hids1
    have hpermfinal :
        (togglePin (togglePin s id) id).entries.Perm s.entries := by
      rw [h2]
      have p1 : (sortEntries ((togglePin s id).entries.map (toggleIf id))).Perm
          ((togglePin s id).entries.map (toggleIf id)) := sortEntries_perm _
      have p2 : ((togglePin s id).entries.map (toggleIf id)).Perm
          ((s.entries.map (toggleIf id)).map (toggleIf id)) := hperm1.map _
      have p3 : (s.entries.map (toggleIf id)).map (toggleIf id) = s.entries :=
        map_toggleIf_twice id s.entries
      rw [p3] at p2
      exact p1.trans p2
    have hkeys : s.entries.Pairwise
        (fun a b => ¬(a.isPinned = b.isPinned ∧ a.timestamp = b.timestamp)) :=
      hsorted.imp (fun hab => pinLt_keyDiff hab)
    have hkeysfinal : (togglePin (togglePin s id) id).entries.Pairwise
        (fun a b => ¬(a.isPinned = b.isPinned ∧ a.timestamp = b.timestamp)) :=
      (List.Perm.pairwise_iff
        (fun hab hc => hab ⟨hc.1.symm, hc.2.symm⟩) hpermfinal).mpr hkeys
    have hsortedle : List.Sorted pinLe (togglePin (togglePin s id) id).entries := by
      rw [h2]
      exact sortEntries_sorted _
    have hsortedfinal : (togglePin (togglePin s id) id).entries.Pairwise pinLt :=
      (List.Pairwise.and hsortedle hkeysfinal).imp
        (fun hab => pinLe_keyDiff_pinLt hab.1 hab.2)
    exact List.eq_of_perm_of_sorted hpermfinal hsortedfinal hsorted

/-- C7 witness: the double toggle applied to a concrete sorted two-entry
list with distinct ids and timestamps. -/
theorem togglePin_twice_amended_witness :
    s7w.entries.Pairwise (fun a b => a.id ≠ b.id) ∧
    s7w.entries.Pairwise pinLt ∧
    getEntries (togglePin (togglePin s7w "b") "b") = getEntries s7w :=
  ⟨by decide, by decide,
    togglePin_twice_amended s7w "b" (by decide) (by decide)⟩

end ClipSpec
